import Mathlib

/-!
Verification development for the leptos-mdx library (`src/mdx.rs`,
`src/markdown.rs`): a markdown-with-components renderer.  The transform
`process_element` walks a DOM tree produced by the external `tl` HTML
parser and produces a tree of view nodes, intercepting tag names that
have a registered component.

Shallow embedding notes, keyed to the source:

* `Node` models `tl::Node` (`Comment` / `Raw` / `Tag`).  A `Raw` node
  carries its raw bytes (`raw.as_bytes()`), a `Tag` its name, its ordered
  attribute mapping (`name -> Option value`; a valueless attribute maps to
  `none`) and its child nodes.
* `View` models the opaque leptos `View`.  The transform only ever builds
  views through `().into_view()` (`View.empty`), `String::into_view`
  (`View.text`), and `html_element` (`View.element`, recording the
  elements id, the `.attr` calls in call order, and the appended
  children); registered components may build arbitrary views, including
  fragments.  The effective value of an attribute that was set several
  times is the value of the last `.attr` call (setter semantics).
* Rust `HashMap` iteration order is unspecified.  The only place the
  source iterates a `HashMap` is the attribute-application loop in
  `html_element`; the embedding therefore takes a `reorder` parameter
  standing for that iteration order, and theorems either hold for every
  `reorder` or assume it is a permutation.
* `String::from_utf8` is modelled by `utf8Decode`, a direct UTF-8
  decoder (same accept/reject behaviour: continuation ranges, no
  overlong encodings, no surrogates, max U+10FFFF).
* The regex rewrite `Regex::new(r"(.+)\n(.+)").replace_all(t, "$1 <br /> $2")`
  is modelled by `replaceNewlines`.  `.` does not match a newline, both
  groups are greedy, and `replace_all` takes successive non-overlapping
  leftmost matches; hence a match always covers one whole line, the
  newline after it, and the whole next line, and scanning resumes after
  that second line.  On the list of newline-separated chunks of the text
  this is exactly `brJoin` below.
-/

namespace LeptosMdx

/-- DOM node as handed to `process_element` by the `tl` parser:
comment, raw text (bytes), or an element with a tag name, an ordered
attribute mapping and child nodes. -/
inductive Node : Type where
  | comment (content : String)
  | raw (bytes : List Nat)
  | tag (name : String) (attrs : List (String × Option String)) (children : List Node)

/-- Leptos view as built by the transform: `().into_view()`,
`String::into_view`, a built-in element (id, applied attributes in
`.attr`-call order, children), or a fragment. -/
inductive View : Type where
  | empty
  | text (s : String)
  | element (name : String) (id : Option String) (attrs : List (String × String))
      (children : List View)
  | fragment (views : List View)

/-- `leptos::Fragment`: a list of views. -/
structure Fragment where
  views : List View

/-! ### UTF-8 decoding (`String::from_utf8`) -/

/-- A UTF-8 continuation byte (`0x80..=0xBF`). -/
def isCont (b : Nat) : Bool := 0x80 ≤ b && b ≤ 0xBF

/-- Strict UTF-8 decoding of a byte list into characters, with the same
accept/reject behaviour as Rust's `String::from_utf8`: continuation
bytes must be in range, overlong encodings, surrogates and code points
above U+10FFFF are rejected. -/
def utf8DecodeAux : List Nat → Option (List Char)
  | [] => some []
  | b :: rest =>
    if b < 0x80 then
      (utf8DecodeAux rest).map (fun cs => Char.ofNat b :: cs)
    else if 0xC2 ≤ b && b ≤ 0xDF then
      match rest with
      | b1 :: rest1 =>
        if isCont b1 then
          (utf8DecodeAux rest1).map
            (fun cs => Char.ofNat ((b - 0xC0) * 0x40 + (b1 - 0x80)) :: cs)
        else none
      | [] => none
    else if 0xE0 ≤ b && b ≤ 0xEF then
      match rest with
      | b1 :: b2 :: rest2 =>
        let lo := if b = 0xE0 then 0xA0 else 0x80
        let hi := if b = 0xED then 0x9F else 0xBF
        if (lo ≤ b1 && b1 ≤ hi) && isCont b2 then
          (utf8DecodeAux rest2).map
            (fun cs => Char.ofNat ((b - 0xE0) * 0x1000 + (b1 - 0x80) * 0x40 + (b2 - 0x80)) :: cs)
        else none
      | _ => none
    else if 0xF0 ≤ b && b ≤ 0xF4 then
      match rest with
      | b1 :: b2 :: b3 :: rest3 =>
        let lo := if b = 0xF0 then 0x90 else 0x80
        let hi := if b = 0xF4 then 0x8F else 0xBF
        if (lo ≤ b1 && b1 ≤ hi) && (isCont b2 && isCont b3) then
          (utf8DecodeAux rest3).map
            (fun cs => Char.ofNat ((b - 0xF0) * 0x40000 + (b1 - 0x80) * 0x1000
              + (b2 - 0x80) * 0x40 + (b3 - 0x80)) :: cs)
        else none
      | _ => none
    else none

/-- `String::from_utf8(bytes)`: `some` of the decoded string on valid
UTF-8 input, `none` otherwise. -/
def utf8Decode (bs : List Nat) : Option String :=
  (utf8DecodeAux bs).map (fun cs => ⟨cs⟩)

/-! ### The newline-formatting rule -/

/-- The replacement text spliced in place of a formatted newline:
`format!("{} <br /> {}", &caps[1], &caps[2])` puts `" <br /> "` between
the two captured runs. -/
def brMarker : String := " <br /> "

/-- Split a character list at every newline, keeping empty chunks
(the inverse of `joinNl`). -/
def splitNl : List Char → List (List Char)
  | [] => [[]]
  | c :: cs =>
    if c = '\n' then [] :: splitNl cs
    else
      match splitNl cs with
      | [] => [[c]]
      | l :: ls => (c :: l) :: ls

/-- Re-join newline-separated chunks with `'\n'`. -/
def joinNl : List (List Char) → List Char
  | [] => []
  | [l] => l
  | l :: ls => l ++ '\n' :: joinNl ls

/-- One pass of `replace_all` for the regex `(.+)\n(.+)` over the list of
newline-separated chunks of the text: a match is two adjacent non-empty
chunks; the replacement glues them with `brMarker`, and scanning resumes
after the second chunk (matches do not overlap). -/
def brJoin : List (List Char) → List (List Char)
  | [] => []
  | [l] => [l]
  | a :: b :: rest =>
    if a ≠ [] ∧ b ≠ [] then (a ++ brMarker.data ++ b) :: brJoin rest
    else a :: brJoin (b :: rest)

/-- `reg.replace_all(&t, |caps| format!("{} <br /> {}", &caps[1], &caps[2]))`
for `reg = (.+)\n(.+)`, as run on line 101 of `src/mdx.rs`. -/
def replaceNewlines (t : String) : String :=
  ⟨joinNl (brJoin (splitNl t.data))⟩

/-! ### Attribute access (`tl::Attributes`) -/

/-- ASCII whitespace, the separator set used to split the `class`
attribute into class names. -/
def isAsciiWs (c : Char) : Bool :=
  c == ' ' || c == '\t' || c == '\n' || c == '\r' || c.toNat == 12

/-- Whitespace tokenizer: `cur` is the (reversed) token being read;
tokens are the maximal non-empty runs of non-whitespace characters. -/
def splitClassesAux : List Char → List Char → List String
  | cur, [] => if cur = [] then [] else [⟨cur.reverse⟩]
  | cur, c :: cs =>
    if isAsciiWs c then
      if cur = [] then splitClassesAux [] cs
      else ⟨cur.reverse⟩ :: splitClassesAux [] cs
    else splitClassesAux (c :: cur) cs

/-- `attributes.class_iter()`: the whitespace-separated tokens of a class
string, in order, duplicates kept, empty pieces skipped. -/
def splitClasses (s : String) : List String :=
  splitClassesAux [] s.data

/-- First-occurrence lookup in an ordered attribute mapping.  The outer
`Option` is attribute presence, the inner one its (possibly absent)
value. -/
def attrLookup (attrs : List (String × Option String)) (k : String) :
    Option (Option String) :=
  match attrs with
  | [] => none
  | (k2, v) :: rest => if k2 = k then some v else attrLookup rest k

/-- `attributes.id()` followed by `.map(to_string)`: the value of the
`id` attribute when it is present with a value. -/
def attrsId (attrs : List (String × Option String)) : Option String :=
  (attrLookup attrs "id").bind (fun v => v)

/-- `attributes.class_iter().map_or(Vec::new(), |it| it.collect())`: the
class tokens, or the empty list when there is no class value. -/
def attrsClasses (attrs : List (String × Option String)) : List String :=
  match attrLookup attrs "class" with
  | some (some s) => splitClasses s
  | _ => []

/-- `HashMap::insert`: replace the value of an existing key in place,
otherwise add the binding. -/
def assocInsert {β : Type} (m : List (String × β)) (k : String) (v : β) :
    List (String × β) :=
  if m.any (fun p => p.1 == k) then
    m.map (fun p => if p.1 == k then (k, v) else p)
  else m ++ [(k, v)]

/-- First-occurrence association lookup (`HashMap::get`; keys are unique
in every map built by `assocInsert`/`collectMap`). -/
def assocLookup {β : Type} (m : List (String × β)) (k : String) : Option β :=
  match m with
  | [] => none
  | (k2, v) :: rest => if k2 = k then some v else assocLookup rest k

/-- `attributes.iter().map(|(k, v)| (k.to_string(), v.map(to_string))).collect()`:
collecting the attribute iterator into a `HashMap`, later occurrences of
a key overwriting earlier ones.  The embedding keeps the entries in
first-occurrence order; the unspecified iteration order of the resulting
`HashMap` is the `reorder` parameter of `html_element`. -/
def collectMap (l : List (String × Option String)) : List (String × Option String) :=
  l.foldl (fun m kv => assocInsert m kv.1 kv.2) []

/-! ### The component registry -/

/-- `MdxComponentProps`: the props handed to a registered component.
The `children` field models the boxed closure
`Box::new(move || Fragment::new(child_views))`. -/
structure MdxComponentProps where
  id : Option String
  classes : List String
  attributes : List (String × Option String)
  children : Unit → Fragment

/-- `Components`: the name-to-render-function registry, a `HashMap`
modelled as an association list with unique keys. -/
structure Components where
  components : List (String × (MdxComponentProps → View))

/-- `Components::new`. -/
def Components.new : Components := ⟨[]⟩

/-- `Components::add`: register a component that receives no props. -/
def Components.add (c : Components) (name : String) (component : Unit → View) :
    Components :=
  ⟨assocInsert c.components name (fun _ => component ())⟩

/-- `Components::add_props`: register a component whose own props are
obtained from the standardized `MdxComponentProps` via `props_adapter`. -/
def Components.add_props {Props : Type} (c : Components) (name : String)
    (component : Props → View) (props_adapter : MdxComponentProps → Props) :
    Components :=
  ⟨assocInsert c.components name (fun props => component (props_adapter props))⟩

/-- `Components::get`. -/
def Components.get (c : Components) (name : String) :
    Option (MdxComponentProps → View) :=
  assocLookup c.components name

/-! ### The transform -/

/-- Stand-in for the unspecified iteration order of the
`HashMap<String, Option<String>>` that `html_element` loops over: a
function rearranging the entries of the collected map. -/
abbrev Reorder := List (String × Option String) → List (String × Option String)

/-- The tag names of the built-in element match in `process_element`
(`src/mdx.rs` lines 158-273), in source order.  Every arm calls
`html_element` with the leptos constructor for that same tag name. -/
def builtinTags : List String :=
  ["html", "base", "head", "link", "meta", "style", "title", "body",
   "address", "article", "aside", "footer", "header", "hgroup",
   "h1", "h2", "h3", "h4", "h5", "h6", "main", "nav", "section",
   "blockquote", "dd", "div", "dl", "dt", "figcaption", "figure", "hr",
   "li", "ol", "p", "pre", "ul", "a", "abbr", "b", "bdi", "bdo", "br",
   "cite", "code", "data", "dfn", "em", "i", "kbd", "mark", "q", "rp",
   "rt", "ruby", "s", "samp", "small", "span", "strong", "sub", "sup",
   "time", "u", "var", "wbr", "area", "audio", "img", "map", "track",
   "video", "embed", "iframe", "object", "param", "picture", "portal",
   "source", "svg", "math", "canvas", "noscript", "script", "del", "ins",
   "caption", "col", "colgroup", "table", "tbody", "td", "tfoot", "th",
   "thead", "tr", "button", "datalist", "fieldset", "form", "input",
   "label", "legend", "meter", "optgroup", "option", "output", "progress",
   "select", "textarea", "details", "dialog", "menu", "summary", "slot",
   "template"]

/-- Whether a tag name has an arm in the built-in element match. -/
def isBuiltinTag (name : String) : Bool := builtinTags.contains name

/-- `html_element` (`src/mdx.rs` lines 283-323): build a built-in view
element of kind `name`; set the id when the id attribute has a value;
apply, in the map's iteration order (`reorder`), every attribute whose
value is present; then set the whitespace-rejoined class attribute when
there is at least one class token; finally append the children in
order. -/
def html_element (reorder : Reorder) (attrs : List (String × Option String))
    (children : List View) (name : String) : View :=
  let id := attrsId attrs
  let attributes_map := collectMap attrs
  let classes := attrsClasses attrs
  let applied := (reorder attributes_map).filterMap
    (fun kv => kv.2.map (fun v => (kv.1, v)))
  let applied2 := applied ++
    (if classes.isEmpty then [] else [("class", String.intercalate " " classes)])
  View.element name id applied2 children

/-- The `parse_new_lines` flag handed to the children of an element:
inside `code` or `pre` the condition on `tag.name()` in the child loop
forces `false`; every other element passes its own flag through. -/
def childFlag (name : String) (parse_new_lines : Bool) : Bool :=
  if name == "code" || name == "pre" then false else parse_new_lines

mutual

/-- `process_element` (`src/mdx.rs` lines 82-281).  Comments render as
the unit view.  Raw text is UTF-8-decoded; on failure the node renders
as the unit view (a diagnostic is printed and traversal continues); on
success the newline rule is applied exactly when `parse_new_lines` is
set.  For an element, all children are processed first in document
order (with the `childFlag` of this element); then the registry is
consulted, and a registered component receives the extracted props and
produces the whole result; otherwise a built-in tag is rendered through
`html_element`, and an unknown tag renders as the unit view (diagnostic
printed, traversal continues). -/
def process_element (reorder : Reorder) (components : Components)
    (parse_new_lines : Bool) : Node → View
  | .comment _ => .empty
  | .raw bytes =>
    match utf8Decode bytes with
    | some t => if parse_new_lines then .text (replaceNewlines t) else .text t
    | none => .empty
  | .tag name attrs children =>
    let child_views :=
      process_children reorder components (childFlag name parse_new_lines) [] children
    match Components.get components name with
    | some component =>
      component
        { id := attrsId attrs
          classes := attrsClasses attrs
          attributes := collectMap attrs
          children := fun _ => ⟨child_views⟩ }
    | none =>
      if isBuiltinTag name then html_element reorder attrs child_views name
      else .empty

/-- The child-processing loop of `process_element` (and the root loop of
`Mdx`): `for_each` over the nodes, pushing each processed view onto the
accumulator vector. -/
def process_children (reorder : Reorder) (components : Components) (flag : Bool)
    (acc : List View) : List Node → List View
  | [] => acc
  | n :: ns =>
    process_children reorder components flag
      (acc ++ [process_element reorder components flag n]) ns

end

/-! ### `src/markdown.rs` and the `Mdx` entry point -/

/-- `markdown::parse` (`src/markdown.rs` lines 6-10): run the external
front-matter parser (`frontmatter::parse_and_find_content`, the `fmP`
parameter), propagating its error with `?`; then convert the remaining
content with the external, total markdown-to-HTML conversion
(`pulldown_cmark`, the `mdToHtml` parameter). -/
def parse {Y E : Type} (fmP : String → Except E (Option Y × String))
    (mdToHtml : String → String) (source : String) :
    Except E (Option Y × String) :=
  match fmP source with
  | .error e => .error e
  | .ok (fm, content) => .ok (fm, mdToHtml content)

/-- `Mdx` (`src/mdx.rs` lines 13-26): parse the source
(`.expect("invalid mdx")` — a parse failure aborts the render with a
panic, modelled as an error result carrying the panic label); parse the
HTML with the external `tl` parser (`tlP`; `.expect("invalid html")`
likewise); then process every root node in document order with the
newline flag set, and return the fragment of the results. -/
def Mdx {Y E H : Type} (reorder : Reorder)
    (fmP : String → Except E (Option Y × String)) (mdToHtml : String → String)
    (tlP : String → Except H (List Node)) (source : String)
    (components : Components) : Except String Fragment :=
  match parse fmP mdToHtml source with
  | .error _ => .error "invalid mdx"
  | .ok (_fm, html) =>
    match tlP html with
    | .error _ => .error "invalid html"
    | .ok dom => .ok ⟨process_children reorder components true [] dom⟩

/-! ### Observations on views -/

/-- The recorded `.attr` calls of a built-in element view. -/
def View.attrsOf : View → List (String × String)
  | .element _ _ attrs _ => attrs
  | _ => []

/-- Last-binding lookup: the value of the last `.attr` call for a key
(the later call overwrites the earlier one on the rendered node). -/
def lookupLast {β : Type} (l : List (String × β)) (k : String) : Option β :=
  match l with
  | [] => none
  | (k2, v) :: rest =>
    match lookupLast rest k with
    | some w => some w
    | none => if k2 = k then some v else none

/-- The effective value of an attribute on a view. -/
def View.attrVal (v : View) (k : String) : Option String :=
  lookupLast (View.attrsOf v) k

/-- Whether a character list contains a newline with a non-newline
character immediately on each side (an "interior newline flanked by
content"). -/
def hasFlankedNl : List Char → Bool
  | a :: b :: c :: l =>
    (a != '\n' && (b == '\n' && c != '\n')) || hasFlankedNl (b :: c :: l)
  | _ => false

/-! ### Structural equivalence of views

Two views are structurally equivalent when they agree everywhere except
possibly in the order in which the attributes of an element were
applied: attribute lists must be permutations of one another.  This is
the precise sense in which a re-run of the transform, whose only
unspecified ingredient is the `HashMap` iteration order in
`html_element`, reproduces the same output. -/

/-- Structural equivalence of views: equal up to permutation of each
element's applied-attribute list. -/
inductive ViewEquiv : View → View → Prop where
  | empty : ViewEquiv .empty .empty
  | text (s : String) : ViewEquiv (.text s) (.text s)
  | element (name : String) (id : Option String) (a1 a2 : List (String × String))
      (c1 c2 : List View) : List.Perm a1 a2 → List.Forall₂ ViewEquiv c1 c2 →
      ViewEquiv (.element name id a1 c1) (.element name id a2 c2)
  | fragment (v1 v2 : List View) : List.Forall₂ ViewEquiv v1 v2 →
      ViewEquiv (.fragment v1) (.fragment v2)

/-- Structural equivalence of fragments: pointwise view equivalence. -/
def FragmentEquiv (f1 f2 : Fragment) : Prop :=
  List.Forall₂ ViewEquiv f1.views f2.views

/-- Structural equivalence of component props: equal extracted data and
equivalent child fragments. -/
def PropsEquiv (p1 p2 : MdxComponentProps) : Prop :=
  p1.id = p2.id ∧ p1.classes = p2.classes ∧ p1.attributes = p2.attributes ∧
    List.Forall₂ ViewEquiv (p1.children ()).views (p2.children ()).views

/-- Structural equivalence of render results: same error, or equivalent
fragments. -/
def RenderEquiv : Except String Fragment → Except String Fragment → Prop
  | .error e1, .error e2 => e1 = e2
  | .ok f1, .ok f2 => FragmentEquiv f1 f2
  | _, _ => False

/-! ### Sizes (for induction over the DOM tree) -/

mutual

/-- Size of a DOM node. -/
def Node.size : Node → Nat
  | .comment _ => 1
  | .raw _ => 1
  | .tag _ _ children => 1 + Node.sizeList children

/-- Total size of a list of DOM nodes. -/
def Node.sizeList : List Node → Nat
  | [] => 0
  | n :: ns => Node.size n + Node.sizeList ns

end

/-! ### Shared lemmas -/

/-- The push-accumulating child loop produces the accumulator followed
by the processed children in document order. -/
theorem process_children_eq (reorder : Reorder) (components : Components)
    (flag : Bool) :
    ∀ (ns : List Node) (acc : List View),
      process_children reorder components flag acc ns =
        acc ++ ns.map (process_element reorder components flag) := by
  intro ns
  induction ns with
  | nil => intro acc; simp [process_children]
  | cons n ns ih =>
    intro acc
    rw [process_children, ih]
    simp

/-- Inserting a fresh key appends the binding. -/
theorem assocInsert_of_not_mem {β : Type} (m : List (String × β)) (k : String)
    (v : β) (h : ∀ p ∈ m, p.1 ≠ k) : assocInsert m k v = m ++ [(k, v)] := by
  unfold assocInsert
  rw [if_neg]
  simp only [List.any_eq_true, beq_iff_eq, not_exists]
  intro p
  intro hc
  exact absurd hc.2 (h p hc.1)

/-- Folding `assocInsert` over bindings with pairwise-distinct keys, all
fresh for the accumulator, appends them unchanged. -/
theorem foldl_assocInsert {β : Type} :
    ∀ (l acc : List (String × β)), (l.map Prod.fst).Nodup →
      (∀ p ∈ acc, ∀ q ∈ l, p.1 ≠ q.1) →
      l.foldl (fun m kv => assocInsert m kv.1 kv.2) acc = acc ++ l := by
  intro l
  induction l with
  | nil => intro acc _ _; simp
  | cons kv l ih =>
    intro acc hnd hdisj
    have hk : kv.1 ∉ l.map Prod.fst := by
      have := hnd
      simp only [List.map_cons, List.nodup_cons] at this
      exact this.1
    have h1 : assocInsert acc kv.1 kv.2 = acc ++ [kv] :=
      assocInsert_of_not_mem acc kv.1 kv.2 (fun p hp => hdisj p hp kv (by simp))
    have h2 : l.foldl (fun m kv => assocInsert m kv.1 kv.2) (acc ++ [kv]) =
        (acc ++ [kv]) ++ l := by
      refine ih (acc ++ [kv]) ?_ ?_
      · have := hnd
        simp only [List.map_cons, List.nodup_cons] at this
        exact this.2
      · intro p hp q hq
        rcases List.mem_append.mp hp with hpa | hpk
        · exact hdisj p hpa q (by simp [hq])
        · have hpe : p = kv := by simpa using hpk
          subst hpe
          intro he
          exact hk (he ▸ List.mem_map_of_mem Prod.fst hq)
    simp only [List.foldl_cons, h1, h2]
    simp

/-- On an attribute list with pairwise-distinct keys — the case for
every map handed over by the HTML parser — collecting into a `HashMap`
keeps exactly the original bindings. -/
theorem collectMap_eq_self (l : List (String × Option String))
    (h : (l.map Prod.fst).Nodup) : collectMap l = l := by
  unfold collectMap
  rw [foldl_assocInsert l [] h (by simp)]
  simp

/-- Under pairwise-distinct keys, a binding in the list is the binding
that lookup finds. -/
theorem attrLookup_eq_of_mem :
    ∀ (l : List (String × Option String)) (k : String) (v : Option String),
      (l.map Prod.fst).Nodup → (k, v) ∈ l → attrLookup l k = some v := by
  intro l
  induction l with
  | nil => intro k v _ hm; cases hm
  | cons p l ih =>
    intro k v hnd hm
    simp only [List.map_cons, List.nodup_cons] at hnd
    rcases List.mem_cons.mp hm with he | ht
    · rw [← he]
      simp [attrLookup]
    · have hk : p.1 ≠ k := by
        intro he2
        exact hnd.1 (he2 ▸ List.mem_map_of_mem Prod.fst ht)
      obtain ⟨p1, p2⟩ := p
      simp only [attrLookup, if_neg hk]
      exact ih k v hnd.2 ht

/-- The value set by the final binding for a key is its effective
value. -/
theorem lookupLast_append {β : Type} :
    ∀ (l : List (String × β)) (k : String) (v : β),
      lookupLast (l ++ [(k, v)]) k = some v := by
  intro l
  induction l with
  | nil => intro k v; simp [lookupLast]
  | cons p l ih =>
    intro k v
    obtain ⟨p1, p2⟩ := p
    simp only [List.cons_append, lookupLast, List.append_eq, ih k v]

/-- Every DOM node has positive size. -/
theorem Node.size_pos : ∀ n : Node, 0 < Node.size n := by
  intro n
  cases n <;> simp [Node.size]

/-- A member of a node list is no larger than the list. -/
theorem Node.size_le_sizeList :
    ∀ (ns : List Node) (n : Node), n ∈ ns → Node.size n ≤ Node.sizeList ns := by
  intro ns
  induction ns with
  | nil => intro n hn; cases hn
  | cons m ms ih =>
    intro n hn
    rcases List.mem_cons.mp hn with he | ht
    · rw [he]
      simp [Node.sizeList]
    · have := ih n ht
      simp [Node.sizeList]
      omega

/-- Mapping two functions that are pointwise related over a list gives
pointwise-related lists. -/
theorem forall2_map_of_mem {α β : Type} {R : β → β → Prop} (f g : α → β) :
    ∀ ns : List α, (∀ n ∈ ns, R (f n) (g n)) →
      List.Forall₂ R (ns.map f) (ns.map g) := by
  intro ns
  induction ns with
  | nil => intro _; exact List.Forall₂.nil
  | cons n ns ih =>
    intro h
    exact List.Forall₂.cons (h n (by simp))
      (ih (fun x hx => h x (by simp [hx])))

/-- The transform is insensitive to the `HashMap` iteration order: two
runs whose attribute-application orders are arbitrary permutations of
the collected map produce structurally equivalent views, for any
registry whose render functions respect structural equivalence of their
props. -/
theorem process_element_equiv (r1 r2 : Reorder) (components : Components)
    (hr1 : ∀ l, List.Perm (r1 l) l) (hr2 : ∀ l, List.Perm (r2 l) l)
    (hf : ∀ name f, Components.get components name = some f →
      ∀ p1 p2, PropsEquiv p1 p2 → ViewEquiv (f p1) (f p2)) :
    ∀ (k : Nat) (n : Node) (flag : Bool), Node.size n ≤ k →
      ViewEquiv (process_element r1 components flag n)
        (process_element r2 components flag n) := by
  intro k
  induction k with
  | zero =>
    intro n flag h
    have hpos : 0 < Node.size n := Node.size_pos n
    omega
  | succ k ih =>
    intro n flag h
    cases n with
    | comment s => exact ViewEquiv.empty
    | raw bytes =>
      rcases hb : utf8Decode bytes with _ | t
      · simp only [process_element, hb]
        exact ViewEquiv.empty
      · cases flag <;> simp only [process_element, hb, if_true, if_false] <;>
          exact ViewEquiv.text _
    | tag name attrs children =>
      have hsz : Node.sizeList children ≤ k := by
        simp only [Node.size] at h
        omega
      have hch : ∀ m ∈ children, Node.size m ≤ k :=
        fun m hm => le_trans (Node.size_le_sizeList children m hm) hsz
      have hcv : List.Forall₂ ViewEquiv
          (process_children r1 components (childFlag name flag) [] children)
          (process_children r2 components (childFlag name flag) [] children) := by
        rw [process_children_eq, process_children_eq]
        simp only [List.nil_append]
        exact forall2_map_of_mem _ _ children
          (fun m hm => ih m (childFlag name flag) (hch m hm))
      rcases hcomp : Components.get components name with _ | f
      · cases hb : isBuiltinTag name
        · simp only [process_element, hcomp, hb, Bool.false_eq_true, if_false]
          exact ViewEquiv.empty
        · simp only [process_element, hcomp, hb, if_true]
          unfold html_element
          refine ViewEquiv.element _ _ _ _ _ _ ?_ hcv
          exact List.Perm.append_right _
            (List.Perm.filterMap _ ((hr1 _).trans (hr2 _).symm))
      · simp only [process_element, hcomp]
        exact hf name f hcomp _ _ ⟨rfl, rfl, rfl, hcv⟩

/-- A newline-free character list is a single chunk. -/
theorem splitNl_no_nl (l : List Char) (h : ∀ c ∈ l, c ≠ '\n') :
    splitNl l = [l] := by
  induction l with
  | nil => rfl
  | cons c cs ih =>
    have hc : c ≠ '\n' := h c (by simp)
    have ih2 := ih (fun x hx => h x (by simp [hx]))
    simp [splitNl, hc, ih2]

/-- Splitting peels off a leading newline-free chunk at its newline. -/
theorem splitNl_append (a : List Char) (l : List Char)
    (h : ∀ c ∈ a, c ≠ '\n') :
    splitNl (a ++ '\n' :: l) = a :: splitNl l := by
  induction a with
  | nil => simp [splitNl]
  | cons c cs ih =>
    have hc : c ≠ '\n' := h c (by simp)
    have ih2 := ih (fun x hx => h x (by simp [hx]))
    simp [splitNl, hc, ih2]

/-! ### Claims -/

/-- C1: an element whose tag name has a registered component renders as
exactly one application of that component's render function to the
extracted `MdxComponentProps` (id, classes, attribute map, and a
children producer wrapping the already-computed child views, processed
with this element's child flag); the built-in element mapping does not
enter the result.  In particular, for a registry containing `"Widget"`
and the element `<Widget id="a" class="x y"><span>hi</span></Widget>`,
the render function receives `id = "a"`, `classes = ["x", "y"]`, and a
children producer yielding the one view that the built-in path produces
for `<span>hi</span>`. -/
theorem c1_component_interception :
    (∀ (reorder : Reorder) (components : Components) (pnl : Bool)
        (name : String) (attrs : List (String × Option String))
        (children : List Node) (f : MdxComponentProps → View),
        Components.get components name = some f →
        process_element reorder components pnl (.tag name attrs children) =
          f { id := attrsId attrs
              classes := attrsClasses attrs
              attributes := collectMap attrs
              children := fun _ =>
                ⟨process_children reorder components (childFlag name pnl)
                  [] children⟩ }) ∧
    (∀ f : MdxComponentProps → View,
        process_element (fun l => l) ⟨[("Widget", f)]⟩ true
            (.tag "Widget" [("id", some "a"), ("class", some "x y")]
              [.tag "span" [] [.raw [104, 105]]]) =
          f { id := some "a"
              classes := ["x", "y"]
              attributes := [("id", some "a"), ("class", some "x y")]
              children := fun _ =>
                ⟨[.element "span" none [] [.text "hi"]]⟩ } ∧
        process_element (fun l => l) ⟨[("Widget", f)]⟩ true
            (.tag "span" [] [.raw [104, 105]]) =
          .element "span" none [] [.text "hi"]) := by
  constructor
  · intro reorder components pnl name attrs children f h
    simp only [process_element, h]
  · intro f
    exact ⟨rfl, rfl⟩

/-- Witness for C1 at the `Widget` example, with a concrete registered
render function. -/
theorem c1_component_interception_witness :
    Components.get ⟨[("Widget", fun _ : MdxComponentProps => View.text "w")]⟩
        "Widget" = some (fun _ : MdxComponentProps => View.text "w") ∧
    process_element (fun l => l)
        ⟨[("Widget", fun _ : MdxComponentProps => View.text "w")]⟩ true
        (.tag "Widget" [("id", some "a"), ("class", some "x y")]
          [.tag "span" [] [.raw [104, 105]]]) =
      (fun _ : MdxComponentProps => View.text "w")
        { id := attrsId [("id", some "a"), ("class", some "x y")]
          classes := attrsClasses [("id", some "a"), ("class", some "x y")]
          attributes := collectMap [("id", some "a"), ("class", some "x y")]
          children := fun _ =>
            ⟨process_children (fun l => l)
              ⟨[("Widget", fun _ : MdxComponentProps => View.text "w")]⟩
              (childFlag "Widget" true)
              [] [.tag "span" [] [.raw [104, 105]]]⟩ } :=
  ⟨rfl,
    c1_component_interception.1 (fun l => l)
      ⟨[("Widget", fun _ : MdxComponentProps => View.text "w")]⟩ true
      "Widget" [("id", some "a"), ("class", some "x y")]
      [.tag "span" [] [.raw [104, 105]]]
      (fun _ : MdxComponentProps => View.text "w") rfl⟩

/-- C2: the `parse_new_lines` flag handed to an element's children is
`false` when the element is `code` or `pre` and is the current flag
unchanged otherwise; consequently `<code>x\ny</code>` keeps its newline
literally (whatever the current flag), while a sibling `<p>x\ny</p>`
under an active flag turns its newline into the break marker. -/
theorem c2_preformatted_flag :
    (∀ pnl : Bool, childFlag "code" pnl = false ∧ childFlag "pre" pnl = false) ∧
    (∀ (name : String) (pnl : Bool), name ≠ "code" → name ≠ "pre" →
        childFlag name pnl = pnl) ∧
    (∀ pnl : Bool,
        process_element (fun l => l) Components.new pnl
            (.tag "code" [] [.raw [120, 10, 121]]) =
          .element "code" none [] [.text "x\ny"]) ∧
    (process_element (fun l => l) Components.new true
        (.tag "p" [] [.raw [120, 10, 121]]) =
      .element "p" none [] [.text ("x" ++ brMarker ++ "y")]) := by
  refine ⟨fun pnl => ⟨rfl, rfl⟩, ?_, fun pnl => rfl, rfl⟩
  intro name pnl h1 h2
  have hc : (name == "code") = false := by simp [h1]
  have hp : (name == "pre") = false := by simp [h2]
  simp [childFlag, hc, hp]

/-- Witness for C2 at the non-preformatted tag `p`. -/
theorem c2_preformatted_flag_witness :
    ("p" : String) ≠ "code" ∧ ("p" : String) ≠ "pre" ∧
      childFlag "p" true = true :=
  ⟨by decide, by decide,
    c2_preformatted_flag.2.1 "p" true (by decide) (by decide)⟩

/-- C4: with formatting active, the text `"a\nb"` renders as `"a"`, the
break marker, then `"b"`; the texts `"\na"` and `"a\n"` keep their
newline as a literal character. -/
theorem c4_single_newline_cases :
    process_element (fun l => l) Components.new true (.raw [97, 10, 98]) =
        .text ("a" ++ brMarker ++ "b") ∧
    process_element (fun l => l) Components.new true (.raw [10, 97]) =
        .text "\na" ∧
    process_element (fun l => l) Components.new true (.raw [97, 10]) =
        .text "a\n" :=
  ⟨rfl, rfl, rfl⟩

/-- C5: a front-matter/markdown parse failure or an HTML parse failure
aborts the render: the `Mdx` entry point surfaces a hard error (the
panic of the corresponding `.expect`) to its caller, and no view tree is
produced for that call. -/
theorem c5_fatal_parse_errors {Y E H : Type} (reorder : Reorder)
    (fmP : String → Except E (Option Y × String)) (mdToHtml : String → String)
    (tlP : String → Except H (List Node)) (source : String)
    (components : Components) :
    (∀ e : E, fmP source = .error e →
      Mdx reorder fmP mdToHtml tlP source components = .error "invalid mdx" ∧
      ∀ frag : Fragment,
        Mdx reorder fmP mdToHtml tlP source components ≠ .ok frag) ∧
    (∀ (fm : Option Y) (content : String) (h : H),
      fmP source = .ok (fm, content) →
      tlP (mdToHtml content) = .error h →
      Mdx reorder fmP mdToHtml tlP source components = .error "invalid html" ∧
      ∀ frag : Fragment,
        Mdx reorder fmP mdToHtml tlP source components ≠ .ok frag) := by
  constructor
  · intro e he
    have hm : Mdx reorder fmP mdToHtml tlP source components =
        .error "invalid mdx" := by
      simp [Mdx, parse, he]
    exact ⟨hm, fun frag => by simp [hm]⟩
  · intro fm content h h1 h2
    have hm : Mdx reorder fmP mdToHtml tlP source components =
        .error "invalid html" := by
      simp [Mdx, parse, h1, h2]
    exact ⟨hm, fun frag => by simp [hm]⟩

/-- Witness for C5 with a concrete failing front-matter parser and a
concrete failing HTML parser. -/
theorem c5_fatal_parse_errors_witness :
    ((fun _ : String => (.error () : Except Unit (Option Unit × String)))
        "src" = .error () ∧
      Mdx (fun l => l)
          (fun _ : String => (.error () : Except Unit (Option Unit × String)))
          (fun s => s)
          (fun _ : String => (.ok [] : Except Unit (List Node)))
          "src" Components.new = .error "invalid mdx") ∧
    ((fun _ : String =>
          (.ok (none, "md") : Except Unit (Option Unit × String)))
        "src" = .ok (none, "md") ∧
      (fun _ : String => (.error () : Except Unit (List Node))) "md" =
        .error () ∧
      Mdx (fun l => l)
          (fun _ : String =>
            (.ok (none, "md") : Except Unit (Option Unit × String)))
          (fun s => s)
          (fun _ : String => (.error () : Except Unit (List Node)))
          "src" Components.new = .error "invalid html") := by
  constructor
  · exact ⟨rfl,
      (c5_fatal_parse_errors (fun l => l)
        (fun _ : String => (.error () : Except Unit (Option Unit × String)))
        (fun s => s)
        (fun _ : String => (.ok [] : Except Unit (List Node)))
        "src" Components.new).1 () rfl |>.1⟩
  · exact ⟨rfl, rfl,
      (c5_fatal_parse_errors (fun l => l)
        (fun _ : String =>
          (.ok (none, "md") : Except Unit (Option Unit × String)))
        (fun s => s)
        (fun _ : String => (.error () : Except Unit (List Node)))
        "src" Components.new).2 none "md" () rfl rfl |>.1⟩

/-- C6: recoverable failures never abort the traversal: a raw text node
whose bytes are not valid UTF-8 renders as the unit view, an element
whose tag has neither a registered component nor a built-in arm renders
as the unit view, and in both cases the surrounding traversal goes on —
a sibling of such a node is still transformed normally. -/
theorem c6_recoverable_errors :
    (∀ (reorder : Reorder) (components : Components) (pnl : Bool)
        (bytes : List Nat), utf8Decode bytes = none →
        process_element reorder components pnl (.raw bytes) = .empty) ∧
    (∀ (reorder : Reorder) (components : Components) (pnl : Bool)
        (name : String) (attrs : List (String × Option String))
        (children : List Node),
        Components.get components name = none → isBuiltinTag name = false →
        process_element reorder components pnl (.tag name attrs children) =
          .empty) ∧
    (∀ sib : Node,
        process_element (fun l => l) Components.new true
            (.tag "div" []
              [.tag "foo-bar" [] [.raw [116, 101, 120, 116]], sib]) =
          .element "div" none []
            [.empty, process_element (fun l => l) Components.new true sib]) := by
  refine ⟨?_, ?_, fun sib => rfl⟩
  · intro reorder components pnl bytes h
    simp [process_element, h]
  · intro reorder components pnl name attrs children h1 h2
    simp [process_element, h1, h2]

/-- Witness for C6: the byte `0xFF` is not valid UTF-8 and renders as
the unit view; the unregistered, non-built-in tag `foo-bar` renders as
the unit view. -/
theorem c6_recoverable_errors_witness :
    (utf8Decode [255] = none ∧
      process_element (fun l => l) Components.new true (.raw [255]) =
        .empty) ∧
    (Components.get Components.new "foo-bar" = none ∧
      isBuiltinTag "foo-bar" = false ∧
      process_element (fun l => l) Components.new true
          (.tag "foo-bar" [] []) = .empty) :=
  ⟨⟨rfl, c6_recoverable_errors.1 (fun l => l) Components.new true [255] rfl⟩,
    ⟨rfl, rfl,
      c6_recoverable_errors.2.1 (fun l => l) Components.new true "foo-bar"
        [] [] rfl rfl⟩⟩

/-- C8: children are visited and transformed in document order — the
push-accumulating loop yields exactly the in-order map of the transform
over the nodes; the child sequence handed to a built-in element is that
in-order sequence; and a successful top-level render returns the
fragment of the root nodes' transforms in their original order. -/
theorem c8_document_order :
    (∀ (reorder : Reorder) (components : Components) (flag : Bool)
        (acc : List View) (ns : List Node),
        process_children reorder components flag acc ns =
          acc ++ ns.map (process_element reorder components flag)) ∧
    (∀ (reorder : Reorder) (components : Components) (pnl : Bool)
        (name : String) (attrs : List (String × Option String))
        (children : List Node),
        Components.get components name = none → isBuiltinTag name = true →
        process_element reorder components pnl (.tag name attrs children) =
          html_element reorder attrs
            (children.map
              (process_element reorder components (childFlag name pnl)))
            name) ∧
    (∀ (Y E H : Type) (reorder : Reorder)
        (fmP : String → Except E (Option Y × String))
        (mdToHtml : String → String) (tlP : String → Except H (List Node))
        (source : String) (components : Components) (fm : Option Y)
        (content : String) (dom : List Node),
        fmP source = .ok (fm, content) → tlP (mdToHtml content) = .ok dom →
        Mdx reorder fmP mdToHtml tlP source components =
          .ok ⟨dom.map (process_element reorder components true)⟩) := by
  refine ⟨?_, ?_, ?_⟩
  · intro reorder components flag acc ns
    exact process_children_eq reorder components flag ns acc
  · intro reorder components pnl name attrs children h1 h2
    simp [process_element, h1, h2, process_children_eq]
  · intro Y E H reorder fmP mdToHtml tlP source components fm content dom h1 h2
    simp [Mdx, parse, h1, h2, process_children_eq]

/-- Witness for C8 with concrete parsers, a concrete two-root document
and a concrete built-in parent. -/
theorem c8_document_order_witness :
    (Components.get Components.new "div" = none ∧
      isBuiltinTag "div" = true ∧
      process_element (fun l => l) Components.new true
          (.tag "div" [] [.raw [104], .raw [105]]) =
        html_element (fun l => l) []
          ([Node.raw [104], Node.raw [105]].map
            (process_element (fun l => l) Components.new
              (childFlag "div" true))) "div") ∧
    ((fun _ : String =>
          (.ok (none, "md") : Except Unit (Option Unit × String)))
        "src" = .ok (none, "md") ∧
      (fun _ : String =>
          (.ok [Node.raw [104], Node.raw [105]] : Except Unit (List Node)))
        "md" = .ok [Node.raw [104], Node.raw [105]] ∧
      Mdx (fun l => l)
          (fun _ : String =>
            (.ok (none, "md") : Except Unit (Option Unit × String)))
          (fun s => s)
          (fun _ : String =>
            (.ok [Node.raw [104], Node.raw [105]] : Except Unit (List Node)))
          "src" Components.new =
        .ok ⟨[Node.raw [104], Node.raw [105]].map
          (process_element (fun l => l) Components.new true)⟩) :=
  ⟨⟨rfl, rfl,
      c8_document_order.2.1 (fun l => l) Components.new true "div" []
        [.raw [104], .raw [105]] rfl rfl⟩,
    ⟨rfl, rfl,
      c8_document_order.2.2 Unit Unit Unit (fun l => l)
        (fun _ : String =>
          (.ok (none, "md") : Except Unit (Option Unit × String)))
        (fun s => s)
        (fun _ : String =>
          (.ok [Node.raw [104], Node.raw [105]] : Except Unit (List Node)))
        "src" Components.new none "md" [Node.raw [104], Node.raw [105]]
        rfl rfl⟩⟩

/-- C3 counterexample: formatting the text `"a\nb\nc"` replaces only the
first newline.  The second newline is flanked by content on both sides
and yet remains a literal character in the output — the replacement is
not exhaustive, because `replace_all` takes non-overlapping matches and
the first match consumes `"b"`. -/
theorem c3_counterexample :
    process_element (fun l => l) Components.new true
        (.raw [97, 10, 98, 10, 99]) = .text "a <br /> b\nc" ∧
    hasFlankedNl ("a <br /> b\nc").data = true ∧
    View.text "a <br /> b\nc" ≠
      View.text ("a" ++ brMarker ++ "b" ++ brMarker ++ "c") := by
  refine ⟨rfl, rfl, ?_⟩
  intro h
  injection h with h
  exact absurd h (by decide)

/-- C3 (amended): the newline rewriting is applied left-to-right over
non-overlapping matches: each replacement consumes the content on both
sides of its newline and scanning resumes afterwards, so of two
consecutive flanked newlines only the first becomes a break — for
newline-free runs `a ≠ ""`, `b ≠ ""` and `c`, the text `a\nb\nc`
rewrites to `a <br /> b` followed by a literal newline and `c`. -/
theorem c3_nonoverlapping_replacement :
    (∀ (reorder : Reorder) (components : Components) (bs : List Nat)
        (t : String), utf8Decode bs = some t →
        process_element reorder components true (.raw bs) =
          .text (replaceNewlines t)) ∧
    (∀ a b c : List Char, a ≠ [] → b ≠ [] →
        (∀ x ∈ a, x ≠ '\n') → (∀ x ∈ b, x ≠ '\n') → (∀ x ∈ c, x ≠ '\n') →
        replaceNewlines ⟨a ++ '\n' :: (b ++ '\n' :: c)⟩ =
          ⟨(a ++ brMarker.data ++ b) ++ '\n' :: c⟩) := by
  constructor
  · intro reorder components bs t h
    simp [process_element, h]
  · intro a b c ha hb na nb nc
    have h1 : splitNl (a ++ '\n' :: (b ++ '\n' :: c)) = a :: b :: [c] := by
      rw [splitNl_append a _ na, splitNl_append b _ nb, splitNl_no_nl c nc]
    unfold replaceNewlines
    rw [show (⟨a ++ '\n' :: (b ++ '\n' :: c)⟩ : String).data =
          a ++ '\n' :: (b ++ '\n' :: c) from rfl, h1]
    simp [brJoin, joinNl, ha, hb]

/-- Witness for C3 (amended) at the text `"a\nb\nc"`. -/
theorem c3_nonoverlapping_replacement_witness :
    utf8Decode [97, 10, 98, 10, 99] = some "a\nb\nc" ∧
    process_element (fun l => l) Components.new true
        (.raw [97, 10, 98, 10, 99]) = .text (replaceNewlines "a\nb\nc") ∧
    (['a'] ≠ ([] : List Char) ∧ ['b'] ≠ ([] : List Char)) ∧
    replaceNewlines ⟨['a'] ++ '\n' :: (['b'] ++ '\n' :: ['c'])⟩ =
      ⟨(['a'] ++ brMarker.data ++ ['b']) ++ '\n' :: ['c']⟩ :=
  ⟨rfl,
    c3_nonoverlapping_replacement.1 (fun l => l) Components.new
      [97, 10, 98, 10, 99] "a\nb\nc" rfl,
    ⟨by decide, by decide⟩,
    c3_nonoverlapping_replacement.2 ['a'] ['b'] ['c'] (by decide) (by decide)
      (by decide) (by decide) (by decide)⟩

/-- C7 counterexample: on `<div class=" ">` the class attribute has no
tokens, so no re-joined class is ever set; the raw whitespace value
`" "` applied by the generic attribute loop is the effective class
attribute of the output node, which differs from the re-joined token
list (the empty string). -/
theorem c7_counterexample :
    process_element (fun l => l) Components.new true
        (.tag "div" [("class", some " ")] []) =
      .element "div" none [("class", " ")] [] ∧
    View.attrVal (.element "div" none [("class", " ")] []) "class" =
      some " " ∧
    splitClasses " " = [] ∧
    View.attrVal (.element "div" none [("class", " ")] []) "class" ≠
      some (String.intercalate " " (splitClasses " ")) :=
  ⟨rfl, rfl, rfl, by decide⟩

/-- C7 (amended): `classes` is the whitespace-split token list of the
`class` attribute (empty when the attribute is absent; order preserved,
duplicates kept); on a built-in element only attributes with a present
string value are ever applied and a valueless attribute never is; the
effective class attribute of the output node is the tokens re-joined
with a single space whenever there is at least one token, while a
present class value with no tokens is passed through raw by the generic
attribute loop (and no re-joined class is set). -/
theorem c7_attribute_extraction :
    (∀ attrs : List (String × Option String),
        (attrLookup attrs "class" = none → attrsClasses attrs = []) ∧
        (∀ s, attrLookup attrs "class" = some (some s) →
          attrsClasses attrs = splitClasses s)) ∧
    (splitClasses "x y x" = ["x", "y", "x"] ∧
      splitClasses "  x   y " = ["x", "y"]) ∧
    (∀ (reorder : Reorder) (attrs : List (String × Option String))
        (cs : List View) (name k : String),
        (∀ l, List.Perm (reorder l) l) →
        (attrs.map Prod.fst).Nodup →
        attrLookup attrs k = some none →
        ∀ v, (k, v) ∉ View.attrsOf (html_element reorder attrs cs name)) ∧
    (∀ (reorder : Reorder) (attrs : List (String × Option String))
        (cs : List View) (name k v : String),
        (∀ l, List.Perm (reorder l) l) →
        (attrs.map Prod.fst).Nodup →
        (k, v) ∈ View.attrsOf (html_element reorder attrs cs name) →
        attrLookup attrs k = some (some v) ∨
          (k = "class" ∧ attrsClasses attrs ≠ [] ∧
            v = String.intercalate " " (attrsClasses attrs))) ∧
    (∀ (reorder : Reorder) (attrs : List (String × Option String))
        (cs : List View) (name : String),
        attrsClasses attrs ≠ [] →
        View.attrVal (html_element reorder attrs cs name) "class" =
          some (String.intercalate " " (attrsClasses attrs))) := by
  refine ⟨?_, ⟨rfl, rfl⟩, ?_, ?_, ?_⟩
  · intro attrs
    constructor
    · intro h; simp [attrsClasses, h]
    · intro s h; simp [attrsClasses, h]
  · intro reorder attrs cs name k hre hnd hk v hv
    simp only [html_element, View.attrsOf] at hv
    rcases List.mem_append.mp hv with hm | hm
    · rcases List.mem_filterMap.mp hm with ⟨kv, hkv, hmap⟩
      have hkv2 : kv = (k, some v) := by
        obtain ⟨k2, ov⟩ := kv
        cases ov with
        | none => simp at hmap
        | some w =>
          simp at hmap
          rw [hmap.1, hmap.2]
      rw [hkv2] at hkv
      have hmem : (k, some v) ∈ collectMap attrs := (hre _).mem_iff.mp hkv
      rw [collectMap_eq_self attrs hnd] at hmem
      have := attrLookup_eq_of_mem attrs k (some v) hnd hmem
      rw [this] at hk
      simp at hk
    · rcases em (attrsClasses attrs).isEmpty with he | he
      · rw [if_pos he] at hm
        cases hm
      · rw [if_neg he] at hm
        have hp := List.mem_singleton.mp hm
        have hkc : k = "class" := (Prod.ext_iff.mp hp).1
        rw [hkc] at hk
        have hnil : attrsClasses attrs = [] := by simp [attrsClasses, hk]
        rw [hnil] at he
        simp at he
  · intro reorder attrs cs name k v hre hnd hv
    simp only [html_element, View.attrsOf] at hv
    rcases List.mem_append.mp hv with hm | hm
    · rcases List.mem_filterMap.mp hm with ⟨kv, hkv, hmap⟩
      have hkv2 : kv = (k, some v) := by
        obtain ⟨k2, ov⟩ := kv
        cases ov with
        | none => simp at hmap
        | some w =>
          simp at hmap
          rw [hmap.1, hmap.2]
      rw [hkv2] at hkv
      have hmem : (k, some v) ∈ collectMap attrs := (hre _).mem_iff.mp hkv
      rw [collectMap_eq_self attrs hnd] at hmem
      exact Or.inl (attrLookup_eq_of_mem attrs k (some v) hnd hmem)
    · rcases em (attrsClasses attrs).isEmpty with he | he
      · rw [if_pos he] at hm
        cases hm
      · rw [if_neg he] at hm
        have hp := List.mem_singleton.mp hm
        refine Or.inr ⟨?_, by simpa using he, ?_⟩
        · exact (Prod.ext_iff.mp hp).1
        · exact (Prod.ext_iff.mp hp).2
  · intro reorder attrs cs name hcls
    simp only [html_element, View.attrVal, View.attrsOf]
    rw [if_neg (by simpa using hcls)]
    exact lookupLast_append _ "class" _

/-- Witness for C7 (amended): a valueless `hidden` attribute is not
applied, and a two-token class list is re-joined with a single space as
the effective class attribute. -/
theorem c7_attribute_extraction_witness :
    ((([("hidden", none)] : List (String × Option String)).map
        Prod.fst).Nodup ∧
      attrLookup [("hidden", none)] "hidden" = some none ∧
      ("hidden", "x") ∉ View.attrsOf
        (html_element (fun l => l) [("hidden", none)] [] "div")) ∧
    (attrsClasses [("class", some "x y")] ≠ [] ∧
      View.attrVal
          (html_element (fun l => l) [("class", some "x y")] [] "div")
          "class" =
        some (String.intercalate " "
          (attrsClasses [("class", some "x y")]))) :=
  ⟨⟨by decide, rfl,
      c7_attribute_extraction.2.2.1 (fun l => l) [("hidden", none)] [] "div"
        "hidden" (fun l => List.Perm.refl l) (by decide) rfl "x"⟩,
    ⟨by decide,
      c7_attribute_extraction.2.2.2.2 (fun l => l) [("class", some "x y")] []
        "div" (by decide)⟩⟩

/-- C9: the transform is deterministic in its inputs — re-running `Mdx`
on the same source and registry gives the same result (all state is an
explicit input; there is no hidden mutable state); moreover even the one
unspecified ingredient, the `HashMap` iteration order of the attribute
loop, cannot distinguish two runs: for any two permutation-orders and
any registry whose render functions respect structural equivalence of
their props, the two runs' results are structurally equivalent. -/
theorem c9_deterministic_render :
    (∀ (Y E H : Type) (reorder : Reorder)
        (fmP : String → Except E (Option Y × String))
        (mdToHtml : String → String) (tlP : String → Except H (List Node))
        (source : String) (components : Components),
        Mdx reorder fmP mdToHtml tlP source components =
          Mdx reorder fmP mdToHtml tlP source components) ∧
    (∀ (Y E H : Type) (r1 r2 : Reorder)
        (fmP : String → Except E (Option Y × String))
        (mdToHtml : String → String) (tlP : String → Except H (List Node))
        (source : String) (components : Components),
        (∀ l, List.Perm (r1 l) l) → (∀ l, List.Perm (r2 l) l) →
        (∀ name f, Components.get components name = some f →
          ∀ p1 p2, PropsEquiv p1 p2 → ViewEquiv (f p1) (f p2)) →
        RenderEquiv (Mdx r1 fmP mdToHtml tlP source components)
          (Mdx r2 fmP mdToHtml tlP source components)) := by
  constructor
  · intro Y E H reorder fmP mdToHtml tlP source components
    rfl
  · intro Y E H r1 r2 fmP mdToHtml tlP source components hr1 hr2 hf
    rcases hp : parse fmP mdToHtml source with e | p
    · simp only [Mdx, hp]
      exact rfl
    · obtain ⟨fm, html⟩ := p
      rcases ht : tlP html with herr | dom
      · simp only [Mdx, hp, ht]
        exact rfl
      · simp only [Mdx, hp, ht]
        show FragmentEquiv _ _
        unfold FragmentEquiv
        rw [process_children_eq, process_children_eq]
        simp only [List.nil_append]
        exact forall2_map_of_mem _ _ dom (fun n _ =>
          process_element_equiv r1 r2 components hr1 hr2 hf
            (Node.size n) n true le_rfl)

/-- Witness for C9: the identity order and the reversed order produce
structurally equivalent renders of a concrete document under the empty
registry. -/
theorem c9_deterministic_render_witness :
    (∀ l : List (String × Option String), List.Perm ((fun l => l) l) l) ∧
    (∀ l : List (String × Option String), List.Perm (l.reverse) l) ∧
    RenderEquiv
      (Mdx (fun l => l)
        (fun _ : String =>
          (.ok (none, "md") : Except Unit (Option Unit × String)))
        (fun s => s)
        (fun _ : String =>
          (.ok [.tag "p" [("id", some "a"), ("class", some "b c")]
            [.raw [104]]] : Except Unit (List Node)))
        "src" Components.new)
      (Mdx (fun l => l.reverse)
        (fun _ : String =>
          (.ok (none, "md") : Except Unit (Option Unit × String)))
        (fun s => s)
        (fun _ : String =>
          (.ok [.tag "p" [("id", some "a"), ("class", some "b c")]
            [.raw [104]]] : Except Unit (List Node)))
        "src" Components.new) :=
  ⟨fun l => List.Perm.refl l, fun l => List.reverse_perm l,
    c9_deterministic_render.2 Unit Unit Unit (fun l => l) (fun l => l.reverse)
      (fun _ : String =>
        (.ok (none, "md") : Except Unit (Option Unit × String)))
      (fun s => s)
      (fun _ : String =>
        (.ok [.tag "p" [("id", some "a"), ("class", some "b c")]
          [.raw [104]]] : Except Unit (List Node)))
      "src" Components.new (fun l => List.Perm.refl l)
      (fun l => List.reverse_perm l)
      (fun _ _ h => Option.noConfusion h)⟩

end LeptosMdx
